import Mathlib

/-!
Verification of the TLV (Tag-Length-Value) codec and tag collection in
`tlv.c` of the `crypt` repository.

The C code is shallowly embedded as follows:
* a byte buffer is a `List Nat`; a read of `rbuf[i]` is `bs.getD i 0 % 256`
  (C memory beyond the list reads as byte 0; `% 256` models the `uchar` type);
* the declared buffer length `rlen` (a C `int`) is an `Int`;
* `ushort` arithmetic wraps modulo 65536 where it can overflow;
* every decode function also returns the list of buffer indices it read,
  so that the spec's bounded-read property can be stated exactly;
* the mutating collection operations also return the list of buffer indices
  they wrote, so that the bounded-write property can be stated exactly;
* loops are embedded as structurally recursive functions on an explicit
  fuel argument chosen at the call site so that the fuel never runs out
  (each C loop strictly increases an index bounded by `rlen`).
-/

/-- A read of `rbuf[i]`: C memory holds `uchar`s, so the value is a byte. -/
def rd (bs : List Nat) (i : Nat) : Nat := bs.getD i 0 % 256

/-- The decoded view `TLV {t, l, v}` of tlv.h; the value pointer `v` is
represented by its offset `voff` from the start of the parsed buffer. -/
structure TLVv where
  t : Nat
  l : Nat
  voff : Nat
deriving DecidableEq, Repr

/-- The collection `TLVbuf {mlen, len, buf}` of tlv.h. -/
structure TLVbuf where
  mlen : Nat
  len : Nat
  buf : List Nat
deriving DecidableEq, Repr

/-- A caller-supplied view passed to `tb_add`: `v = none` models a NULL
value pointer (the C then zero-fills). -/
structure TLVin where
  t : Nat
  l : Nat
  v : Option (List Nat)
deriving DecidableEq, Repr

/-- tlv.c line 79: `tlv_tag0` — high byte of a 2-byte tag, else the tag. -/
def tlv_tag0 (tag : Nat) : Nat := if 0xff < tag then tag >>> 8 else tag

/-- tlv.c line 97: `while (i < rlen && rbuf[i]==0x00) i++;` — the filler
skip loop of `tlv_tag`.  Returns the final `i` and the indices read. -/
def skipZeros (bs : List Nat) (rlen : Nat) : Nat → Nat → Nat × List Nat
  | 0, i => (i, [])
  | fuel+1, i =>
    if i < rlen then
      if rd bs i = 0 then
        let r := skipZeros bs rlen fuel (i+1)
        (r.1, i :: r.2)
      else (i, [i])
    else (i, [])

/-- tlv.c lines 103-105: the do-while multi-byte tag loop of `tlv_tag`:
`do { i++; *tag <<= 8; *tag |= rbuf[i]; } while (i < rlen && (rbuf[i]&TAG_NEXT) != 0);`.
Note the body reads `rbuf[i]` after the increment and before any bound
check.  Returns the final `i`, the accumulated tag and the indices read. -/
def tagLoop (bs : List Nat) (rlen : Nat) : Nat → Nat → Nat → Nat × Nat × List Nat
  | 0, i, tag => (i, tag, [])
  | fuel+1, i, tag =>
    let b := rd bs (i+1)
    let tag2 := ((tag <<< 8) % 65536) ||| b
    if i+1 < rlen ∧ b &&& 0x80 ≠ 0 then
      let r := tagLoop bs rlen fuel (i+1) tag2
      (r.1, r.2.1, (i+1) :: r.2.2)
    else (i+1, tag2, [i+1])

/-- tlv.c line 92: `tlv_tag` — parse a tag.  Result: (return value,
decoded tag) and the list of indices read.  The C writes the tag through a
pointer; paths that never write it yield 0 here. -/
def tlv_tag (bs : List Nat) (rlen : Int) : (Int × Nat) × List Nat :=
  if rlen < 0 then ((-1, 0), [])
  else
    let n := rlen.toNat
    let s := skipZeros bs n n 0
    let i := s.1
    if i = n then ((0, 0), s.2)
    else
      let t0 := rd bs i
      if t0 &&& 0x1f = 0x1f then
        let r := tagLoop bs n (n - i) i t0
        let i2 := r.1
        let tr := s.2 ++ [i] ++ r.2.2
        if n ≤ i2 then ((-1, r.2.1), tr)
        else if rd bs i2 &&& 0x80 ≠ 0 then ((-1, r.2.1), tr ++ [i2])
        else
          let c := i2 + 1
          if 2 < c - i then (((c : Int), 0), tr ++ [i2])
          else (((c : Int), r.2.1), tr ++ [i2])
      else (((i + 1 : Nat), t0), s.2 ++ [i])

/-- tlv.c line 142: `for (tlv->l=0; i > 0; i--) { tlv->l <<= 8; tlv->l |= *rbuf++; }`
— the long-form length accumulation loop (at most 2 iterations). -/
def lenLoop (bs : List Nat) : Nat → Nat → Nat → Nat × List Nat
  | _, 0, l => (l, [])
  | pos, c+1, l =>
    let b := rd bs pos
    let r := lenLoop bs (pos+1) c (((l <<< 8) % 65536) ||| b)
    (r.1, pos :: r.2)

/-- tlv.c line 124: `tlv_tlv0` — parse tag and length, no value bound check.
Returns (return value, view) and the indices read.  On failure the view
holds whatever fields the C had stored by then. -/
def tlv_tlv0 (bs : List Nat) (rlen : Int) : (Int × TLVv) × List Nat :=
  let r := tlv_tag bs rlen
  let i := r.1.1
  let t := r.1.2
  if i ≤ 0 then ((i, ⟨t, 0, 0⟩), r.2)
  else
    let iN := i.toNat
    let rem0 := rlen - i
    if rem0 ≤ 0 then ((-1, ⟨t, 0, 0⟩), r.2)
    else
      let lb := rd bs iN
      let rem1 := rem0 - 1
      if lb &&& 0x80 ≠ 0 then
        let cnt := lb &&& 0x7f
        if (cnt : Int) > rem1 then ((-1, ⟨t, lb, 0⟩), r.2 ++ [iN])
        else if 2 < cnt then ((-2, ⟨t, lb, 0⟩), r.2 ++ [iN])
        else
          let lr := lenLoop bs (iN + 1) cnt 0
          ((1, ⟨t, lr.1, iN + 1 + cnt⟩), r.2 ++ [iN] ++ lr.2)
      else ((1, ⟨t, lb, iN + 1⟩), r.2 ++ [iN])

/-- tlv.c line 156: `tlv_parseTLV` — as `tlv_tlv0` plus the check that the
declared value length fits in the remaining buffer. -/
def tlv_parseTLV (bs : List Nat) (rlen : Int) : (Int × TLVv) × List Nat :=
  let r := tlv_tlv0 bs rlen
  if r.1.1 ≤ 0 then r
  else
    let t := r.1.2
    if (t.l : Int) > rlen - t.voff then ((-1, t), r.2) else ((1, t), r.2)

/-- tlv.c lines 226-232: the scan loop of `tlv_find`.  `start` is the
offset of the current scan pointer `b` from the original buffer; the
returned view carries an absolute value offset.  Advancing by
`t.v += t.l; l -= t.v - b; b = t.v` shrinks `l` by at least 2, so fuel
`l.toNat + 1` never runs out. -/
def tlv_findLoop (bs : List Nat) (tag : Nat) : Nat → Nat → Int → Nat × Option TLVv × List Nat
  | 0, _, _ => (0, some ⟨tag, 0, 0⟩, [])
  | fuel+1, start, l =>
    let p := tlv_parseTLV (bs.drop start) l
    let tr := p.2.map (start + ·)
    if 0 < p.1.1 then
      let t := p.1.2
      if t.t = tag then (1, some ⟨t.t, t.l, start + t.voff⟩, tr)
      else
        let adv := t.voff + t.l
        let r := tlv_findLoop bs tag fuel (start + adv) (l - adv)
        (r.1, r.2.1, tr ++ r.2.2)
    else (0, some ⟨tag, 0, 0⟩, tr)

/-- tlv.c line 222: `tlv_find` — flat search.  Result: (found flag, the
view written through the out parameter — `none` when the C leaves it
untouched), and the indices read. -/
def tlv_find (bs : List Nat) (l : Int) (tag : Nat) : Nat × Option TLVv × List Nat :=
  if tag = 0 then (0, none, [])
  else tlv_findLoop bs tag (l.toNat + 1) 0 l

/-- tlv.c line 451: the body of `tlv_check`, fuel-indexed as in
`tlv_findLoop` (both the descent into a constructed value and the advance
past a record strictly shrink the length). -/
def tlv_checkF : Nat → List Nat → Int → Bool
  | 0, _, _ => false
  | fuel+1, bs, l =>
    let p := tlv_parseTLV bs l
    let i := p.1.1
    if 0 < i then
      let t := p.1.2
      let adv := t.voff + t.l
      if tlv_tag0 t.t &&& 0x20 ≠ 0 then
        if ¬ tlv_checkF fuel (bs.drop t.voff) (t.l : Int) then false
        else tlv_checkF fuel (bs.drop adv) (l - adv)
      else tlv_checkF fuel (bs.drop adv) (l - adv)
    else decide (i = 0)

/-- tlv.c line 451: `tlv_check` — whole-buffer consistency check. -/
def tlv_check (bs : List Nat) (l : Int) : Bool := tlv_checkF (l.toNat + 1) bs l

/-- tlv.c line 286: `tb_find` — delegate to `tlv_find` over the used range. -/
def tb_find (tb : TLVbuf) (tag : Nat) : Nat × Option TLVv × List Nat :=
  tlv_find tb.buf (tb.len : Int) tag

/-- `ushort` subtraction (used for `tb->len -= tlv.l`, which can wrap). -/
def sub16 (a b : Nat) : Nat := (((a : Int) - b) % 65536).toNat

/-- A forward byte-by-byte `memcpy` inside one buffer (tlv.c line 307);
`List.set` past the end of the list is a no-op, standing in for the
undefined behaviour of writing past the allocation. -/
def memcpyShift : List Nat → Nat → Nat → Nat → List Nat
  | bs, _, _, 0 => bs
  | bs, d, s, c+1 => memcpyShift (bs.set d (rd bs s)) (d+1) (s+1) c

/-- tlv.c line 297: `tb_del` — delete the record with tag `t`.  The encoded
span and the start of the record are re-derived from the decoded length
exactly as the C does (the three `if`s and the `+2`).  A negative `memcpy`
count (undefined behaviour in C) copies nothing here. -/
def tb_del (tb : TLVbuf) (t : Nat) : Nat × TLVbuf :=
  let f := tb_find tb t
  if f.1 = 0 then (0, tb)
  else match f.2.1 with
  | none => (0, tb)
  | some tlv =>
    let a1 := if 0x7f < tlv.l then (tlv.l + 1, tlv.voff - 1) else (tlv.l, tlv.voff)
    let a2 := if 0xff < a1.1 then (a1.1 + 1, a1.2 - 1) else a1
    let a3 := (a2.1 + 2, a2.2 - 2)
    let a4 := if 0xff < tlv.t then (a3.1 + 1, a3.2 - 1) else a3
    let cnt := ((tb.len : Int) - (a4.2 + a4.1)).toNat
    (1, ⟨tb.mlen, sub16 tb.len a4.1, memcpyShift tb.buf a4.2 (a4.2 + a4.1) cnt⟩)

/-- Write a run of bytes at consecutive offsets (`*b++ = x` and `memcpy`
into the collection buffer); each store truncates to a `uchar`. -/
def wrBytes : List Nat → Nat → List Nat → List Nat
  | bs, _, [] => bs
  | bs, off, b :: rest => wrBytes (bs.set off (b % 256)) (off+1) rest

/-- The tag bytes `tb_add` emits (tlv.c lines 350-351). -/
def encTagBytes (t : Nat) : List Nat := if 0xff < t then [t >>> 8, t] else [t]

/-- The length bytes `tb_add` emits (tlv.c lines 353-355). -/
def encLenBytes (l : Nat) : List Nat :=
  if 0xff < l then [0x82, l >>> 8, l] else if 0x7f < l then [0x81, l] else [l]

/-- The `l` value bytes copied from the caller's view: `memcpy` from the
source when non-NULL (tlv.c line 356), zero-fill when NULL. -/
def valueBytes : Option (List Nat) → Nat → List Nat
  | some vs, l => (List.range l).map (fun k => vs.getD k 0)
  | none, l => List.replicate l 0

/-- tlv.c lines 346-358: the append tail of `tb_add` — capacity check,
then tag bytes, length bytes and value bytes, then `tb->len = b - tb->buf`.
Returns (new state, return value) and the offsets written. -/
def tb_append (tb : TLVbuf) (t l : Nat) (v : Option (List Nat)) : (TLVbuf × Int) × List Nat :=
  if tb.mlen ≤ tb.len + l + 2 then ((tb, -32), [])
  else
    let enc := encTagBytes t ++ encLenBytes l
    let vals := valueBytes v l
    let buf2 := wrBytes (wrBytes tb.buf tb.len enc) (tb.len + enc.length) vals
    ((⟨tb.mlen, (tb.len + enc.length + l) % 65536, buf2⟩, 1),
     (List.range (enc.length + l)).map (tb.len + ·))

/-- tlv.c line 324: `tb_add`.  Error codes are the C's `-EINVAL = -22`,
`-EEXIST = -17`, `-EPIPE = -32`.  Returns (new state, return value) and
the buffer offsets written. -/
def tb_add (tb : TLVbuf) (tlv : TLVin) (ovr : Nat) : (TLVbuf × Int) × List Nat :=
  if tlv.l = 0 then ((tb, -22), [])
  else if (tlv.t ≤ 0xff ∧ tlv_tag0 tlv.t &&& 0x1f = 0x1f) ∨
          (0xff < tlv.t ∧ tlv.t &&& 0x80 ≠ 0) ∨ tlv.t = 0 then ((tb, -22), [])
  else if ovr < 3 ∧ (tb_find tb tlv.t).1 ≠ 0 then
    Option.elim (tb_find tb tlv.t).2.1 (tb_append tb tlv.t tlv.l tlv.v)
      (fun t0 =>
        if ovr = 0 then ((tb, -17), [])
        else if ovr = 2 then ((tb, 0), [])
        else if tlv.l = t0.l then
          ((⟨tb.mlen, tb.len, wrBytes tb.buf t0.voff (valueBytes tlv.v t0.l)⟩, 1),
           (List.range t0.l).map (t0.voff + ·))
        else tb_append (tb_del tb tlv.t).2 tlv.t tlv.l tlv.v)
  else tb_append tb tlv.t tlv.l tlv.v

/-- tlv.c lines 373-379: the scan loop of `tb_addbuf`; the view handed to
`tb_add` carries the value bytes sliced from the input buffer (the C
restores `t.v -= t.l` before the call). -/
def tb_addbufF (bs : List Nat) (ovr : Nat) : Nat → TLVbuf → Nat → Int → TLVbuf × Int
  | 0, tb, _, _ => (tb, 0)
  | fuel+1, tb, start, l =>
    let p := tlv_parseTLV (bs.drop start) l
    let i := p.1.1
    if 0 < i then
      let t := p.1.2
      let adv := t.voff + t.l
      let a := tb_add tb ⟨t.t, t.l, some (((bs.drop start).drop t.voff).take t.l)⟩ ovr
      if a.1.2 < 0 then (a.1.1, a.1.2)
      else tb_addbufF bs ovr fuel a.1.1 (start + adv) (l - adv)
    else (tb, if i < 0 then i else 0)

/-- tlv.c line 369: `tb_addbuf` — decode successive records from `bs` and
add each; stops at and returns the first negative result, else 0. -/
def tb_addbuf (tb : TLVbuf) (bs : List Nat) (l : Int) (ovr : Nat) : TLVbuf × Int :=
  tb_addbufF bs ovr (l.toNat + 1) tb 0 l

/-- Decimal digit test for a byte (`'0'..'9'`). -/
def isDigitByte (b : Nat) : Bool := 48 ≤ b ∧ b ≤ 57

/-- Modelled from the spec and the C standard library: `sscanf(buf, "%0Wu", &x)`
accumulating at most `w` decimal digits from position `pos`. -/
def scanUAux (bs : List Nat) : Nat → Nat → Nat → Nat
  | 0, _, acc => acc
  | w+1, pos, acc =>
    let b := rd bs pos
    if isDigitByte b then scanUAux bs w (pos+1) (acc * 10 + (b - 48)) else acc

/-- Modelled from the spec and the C standard library: `sscanf(buf, "%0Wu", &x)`
restricted to inputs that begin with a decimal digit (as all inputs of the
claims do); `none` models a 0-item scan. -/
def scanU (bs : List Nat) (w : Nat) : Option Nat :=
  if isDigitByte (rd bs 0) then some (scanUAux bs w 0 0) else none

/-- tlv.c line 176: `tlv_parseLTV` — fixed 6-digit ASCII header.  Both
scans start at offset 0, exactly as the two `sscanf(castptr(char*,rbuf),...)`
calls in the C do. -/
def tlv_parseLTV (bs : List Nat) (rlen : Int) : Int × TLVv :=
  if rlen < 6 then (-1, ⟨0, 0, 0⟩)
  else match scanU bs 4 with
  | none => (-1, ⟨0, 0, 0⟩)
  | some x =>
    let l0 := x % 65536
    match scanU bs 2 with
    | none => (-1, ⟨0, l0, 0⟩)
    | some y =>
      let t0 := y % 65536
      if l0 < 2 then (-1, ⟨t0, l0, 0⟩)
      else
        let l1 := l0 - 2
        if (l1 : Int) > rlen - 6 then (-1, ⟨t0, l1, 6⟩)
        else (1, ⟨t0, l1, 6⟩)

/-! ## General lemmas about the embedded operations -/

theorem skipZeros_stop (bs : List Nat) (rlen fuel i : Nat)
    (hf : fuel ≠ 0) (hi : i < rlen) (hb : rd bs i ≠ 0) :
    skipZeros bs rlen fuel i = (i, [i]) := by
  match fuel with
  | 0 => exact absurd rfl hf
  | f+1 => simp [skipZeros, hi, hb]

theorem tagLoop_stop (bs : List Nat) (rlen fuel i tag : Nat)
    (hf : fuel ≠ 0) (hc : ¬ (i+1 < rlen ∧ rd bs (i+1) &&& 0x80 ≠ 0)) :
    tagLoop bs rlen fuel i tag =
      (i+1, ((tag <<< 8) % 65536) ||| rd bs (i+1), [i+1]) := by
  match fuel with
  | 0 => exact absurd rfl hf
  | f+1 => simp only [tagLoop, hc, if_false]

theorem tagLoop_cont (bs : List Nat) (rlen fuel i tag : Nat)
    (hi : i+1 < rlen) (hb : rd bs (i+1) &&& 0x80 ≠ 0) :
    tagLoop bs rlen (fuel+1) i tag =
      (let r := tagLoop bs rlen fuel (i+1) (((tag <<< 8) % 65536) ||| rd bs (i+1))
       (r.1, r.2.1, (i+1) :: r.2.2)) := by
  simp [tagLoop, hi, hb]

theorem lenLoop_one (bs : List Nat) (pos l : Nat) :
    lenLoop bs pos 1 l = (((l <<< 8) % 65536) ||| rd bs pos, [pos]) := rfl

theorem lenLoop_two (bs : List Nat) (pos l : Nat) :
    lenLoop bs pos 2 l =
      ((((((l <<< 8) % 65536) ||| rd bs pos) <<< 8) % 65536) ||| rd bs (pos+1),
       [pos, pos+1]) := rfl

/-- `tlv_tag` on a buffer whose first byte is a nonzero single-byte tag. -/
theorem tlv_tag_single (bs : List Nat) (rlen : Int)
    (hr : 0 < rlen) (hb : rd bs 0 ≠ 0) (hseq : rd bs 0 &&& 0x1f ≠ 0x1f) :
    (tlv_tag bs rlen).1 = (1, rd bs 0) := by
  have hn : 0 < rlen.toNat := by omega
  simp only [tlv_tag]
  rw [if_neg (by omega : ¬ rlen < 0),
      skipZeros_stop _ _ _ _ (by omega) hn hb]
  simp [hseq]
  rw [if_neg (by omega : ¬ (0:Nat) = rlen.toNat)]

/-- `tlv_tag` on a buffer starting a 2-byte tag: first byte carries the
0x1F marker, second byte clears the continuation bit. -/
theorem tlv_tag_double (bs : List Nat) (rlen : Int)
    (hr : 2 ≤ rlen) (hb : rd bs 0 ≠ 0) (hseq : rd bs 0 &&& 0x1f = 0x1f)
    (hnext : rd bs 1 &&& 0x80 = 0) :
    (tlv_tag bs rlen).1 = ((2 : Int), ((rd bs 0 <<< 8) % 65536) ||| rd bs 1) := by
  have hn : 2 ≤ rlen.toNat := by omega
  simp only [tlv_tag]
  rw [if_neg (by omega : ¬ rlen < 0),
      skipZeros_stop _ _ _ _ (by omega) (by omega) hb,
      tagLoop_stop _ _ _ _ _ (by omega) (by simp [hnext])]
  simp [hseq, hnext]
  rw [if_neg (by omega : ¬ (0:Nat) = rlen.toNat), if_neg (by omega : ¬ rlen ≤ (1:Int))]

/-- `tlv_tlv0` when the length byte is short-form. -/
theorem tlv_tlv0_short (bs : List Nat) (rlen : Int) (i : Int) (t : Nat)
    (htag : (tlv_tag bs rlen).1 = (i, t)) (hi : 0 < i) (hrem : i < rlen)
    (hlb : rd bs i.toNat &&& 0x80 = 0) :
    (tlv_tlv0 bs rlen).1 = (1, ⟨t, rd bs i.toNat, i.toNat + 1⟩) := by
  simp only [tlv_tlv0, htag]
  rw [if_neg (by simpa using by omega : ¬ (i, t).1 ≤ 0)]
  simp [hlb]
  rw [if_neg (by omega : ¬ rlen ≤ i)]

/-- `tlv_tlv0` when the length byte is long-form with a supported,
in-bounds count of subsequent bytes. -/
theorem tlv_tlv0_long (bs : List Nat) (rlen : Int) (i : Int) (t : Nat)
    (htag : (tlv_tag bs rlen).1 = (i, t)) (hi : 0 < i)
    (hlb : rd bs i.toNat &&& 0x80 ≠ 0)
    (hcnt2 : rd bs i.toNat &&& 0x7f ≤ 2)
    (hrem : ((rd bs i.toNat &&& 0x7f : Nat) : Int) ≤ rlen - i - 1) :
    (tlv_tlv0 bs rlen).1 =
      (1, ⟨t, (lenLoop bs (i.toNat + 1) (rd bs i.toNat &&& 0x7f) 0).1,
           i.toNat + 1 + (rd bs i.toNat &&& 0x7f)⟩) := by
  simp only [tlv_tlv0, htag]
  rw [if_neg (by simpa using by omega : ¬ (i, t).1 ≤ 0)]
  simp [hlb]
  rw [if_neg (by omega : ¬ rlen ≤ i),
      if_neg (by omega : ¬ rlen - i - 1 < ((rd bs i.toNat &&& 0x7f : Nat) : Int)),
      if_neg (by omega : ¬ 2 < rd bs i.toNat &&& 0x7f)]

/-- `tlv_tlv0` rejects with -2 a long-form count above 2 that still fits
in the remaining buffer (the short-buffer check comes first in the C). -/
theorem tlv_tlv0_len_toolong (bs : List Nat) (rlen : Int) (i : Int) (t : Nat)
    (htag : (tlv_tag bs rlen).1 = (i, t)) (hi : 0 < i)
    (hlb : rd bs i.toNat &&& 0x80 ≠ 0)
    (hcnt2 : 2 < rd bs i.toNat &&& 0x7f)
    (hrem : ((rd bs i.toNat &&& 0x7f : Nat) : Int) ≤ rlen - i - 1) :
    (tlv_tlv0 bs rlen).1.1 = -2 := by
  simp only [tlv_tlv0, htag]
  rw [if_neg (by simpa using by omega : ¬ (i, t).1 ≤ 0)]
  simp [hlb]
  rw [if_neg (by omega : ¬ rlen ≤ i),
      if_neg (by omega : ¬ rlen - i - 1 < ((rd bs i.toNat &&& 0x7f : Nat) : Int)),
      if_pos hcnt2]

/-- `tlv_parseTLV` succeeds exactly when `tlv_tlv0` did and the value fits. -/
theorem tlv_parseTLV_ok (bs : List Nat) (rlen : Int) (v : TLVv)
    (h : (tlv_tlv0 bs rlen).1 = (1, v)) (hfit : (v.l : Int) ≤ rlen - v.voff) :
    (tlv_parseTLV bs rlen).1 = (1, v) := by
  simp [tlv_parseTLV, h]
  rw [if_neg (by omega : ¬ rlen - (v.voff : Int) < v.l)]

/-- `tlv_find` over a zero-length range finds nothing and reads nothing. -/
theorem find_len_zero (bs : List Nat) (tag : Nat) :
    tlv_find bs 0 tag = (0, if tag = 0 then none else some ⟨tag, 0, 0⟩, []) := by
  by_cases h : tag = 0
  · simp [tlv_find, h]
  · simp [tlv_find, h]; rfl

theorem set_splice (bs : List Nat) (i v : Nat) (h : i < bs.length) :
    bs.set i v = bs.take i ++ v :: bs.drop (i+1) := by
  induction bs generalizing i with
  | nil => simp at h
  | cons a l ih =>
    cases i with
    | zero => simp
    | succ n =>
      simp only [List.set, List.take, List.drop, List.cons_append, List.cons.injEq, true_and]
      exact ih n (by simpa using h)

/-- An in-bounds run of byte stores is a splice. -/
theorem wrBytes_splice (src : List Nat) (bs : List Nat) (off : Nat)
    (h : off + src.length ≤ bs.length) :
    wrBytes bs off src = bs.take off ++ src.map (· % 256) ++ bs.drop (off + src.length) := by
  induction src generalizing bs off with
  | nil => simp [wrBytes]
  | cons b rest ih =>
    have hoff : off < bs.length := by simp at h; omega
    have h2 : (off+1) + rest.length ≤ (bs.set off (b % 256)).length := by
      simp at h ⊢; omega
    rw [wrBytes, ih _ _ h2]
    have hlen : (bs.take off).length = off := by
      simp [List.length_take, Nat.min_eq_left (Nat.le_of_lt hoff)]
    have hta : (bs.set off (b % 256)).take (off+1) = bs.take off ++ [b % 256] := by
      rw [set_splice _ _ _ hoff]
      calc (bs.take off ++ (b % 256) :: bs.drop (off+1)).take (off+1)
          = (bs.take off ++ (b % 256) :: bs.drop (off+1)).take ((bs.take off).length + 1) := by
            rw [hlen]
        _ = bs.take off ++ ((b % 256) :: bs.drop (off+1)).take 1 := List.take_append 1
        _ = bs.take off ++ [b % 256] := by simp
    have hdr : (bs.set off (b % 256)).drop (off + 1 + rest.length) =
        bs.drop (off + 1 + rest.length) := by
      rw [List.drop_set]; simp only [if_pos (by omega : off < off + 1 + rest.length)]
    rw [hta, hdr]
    have hidx : off + (rest.length + 1) = off + 1 + rest.length := by omega
    simp only [List.map_cons, List.length_cons, hidx]
    simp [List.append_assoc]

theorem map_mod_id (v : List Nat) (h : ∀ b ∈ v, b < 256) : v.map (· % 256) = v := by
  induction v with
  | nil => rfl
  | cons a l ih =>
    simp only [List.map_cons]
    rw [Nat.mod_eq_of_lt (h a (by simp)), ih (fun b hb => h b (by simp [hb]))]

theorem range_getD_self (v : List Nat) :
    (List.range v.length).map (fun k => v.getD k 0) = v := by
  induction v with
  | nil => rfl
  | cons a l ih =>
    rw [List.length_cons, List.range_succ_eq_map, List.map_cons, List.map_map]
    have hc : ((fun k => (a :: l).getD k 0) ∘ Nat.succ) = fun k => l.getD k 0 := by
      funext k; simp
    rw [List.getD_cons_zero, hc, ih]

/-- `tb_add` with the `Reject` policy on an empty collection of capacity `M`
appends the encoded record (its header bytes truncated to `uchar` by the
stores) at offset 0. -/
theorem tb_add_empty (M t l : Nat) (v : List Nat) (hv : v.length = l) (hl : l ≠ 0)
    (hvalid : ¬ ((t ≤ 0xff ∧ tlv_tag0 t &&& 0x1f = 0x1f) ∨ (0xff < t ∧ t &&& 0x80 ≠ 0) ∨ t = 0))
    (hcap : l + 2 < M)
    (henc : (encTagBytes t ++ encLenBytes l).length + l ≤ M)
    (hb : ∀ b ∈ v, b < 256)
    (hlen : (encTagBytes t ++ encLenBytes l).length + l < 65536) :
    (tb_add ⟨M, 0, List.replicate M 0⟩ ⟨t, l, some v⟩ 0).1 =
      (⟨M, (encTagBytes t ++ encLenBytes l).length + l,
        (encTagBytes t ++ encLenBytes l).map (· % 256) ++ v ++
          List.replicate (M - (encTagBytes t ++ encLenBytes l).length - l) 0⟩, 1) := by
  have hfind : (tb_find ⟨M, 0, List.replicate M 0⟩ t).1 = 0 := by
    simp [tb_find, find_len_zero]
  have hel : (encTagBytes t ++ encLenBytes l).length ≤ M := by
    have := henc; omega
  have hml : ((encTagBytes t ++ encLenBytes l).map (· % 256)).length
      = (encTagBytes t ++ encLenBytes l).length := List.length_map _ _
  simp only [tb_add, tb_append, hfind]
  rw [if_neg hl, if_neg hvalid, if_neg (by simp), if_neg (by simpa using by omega)]
  have hsp1 : wrBytes (List.replicate M 0) 0 (encTagBytes t ++ encLenBytes l)
      = (encTagBytes t ++ encLenBytes l).map (· % 256) ++
        List.replicate (M - (encTagBytes t ++ encLenBytes l).length) 0 := by
    rw [wrBytes_splice _ _ _ (by simpa using hel)]
    simp [List.drop_replicate]
  have hvals : valueBytes (some v) l = v := by
    simp only [valueBytes]
    rw [← hv, range_getD_self]
  have hsp2 : wrBytes ((encTagBytes t ++ encLenBytes l).map (· % 256) ++
        List.replicate (M - (encTagBytes t ++ encLenBytes l).length) 0)
        (0 + (encTagBytes t ++ encLenBytes l).length) (valueBytes (some v) l)
      = (encTagBytes t ++ encLenBytes l).map (· % 256) ++ v ++
        List.replicate (M - (encTagBytes t ++ encLenBytes l).length - l) 0 := by
    have hlen2 : (encTagBytes t ++ encLenBytes l).length + v.length ≤
        ((encTagBytes t ++ encLenBytes l).map (· % 256) ++
          List.replicate (M - (encTagBytes t ++ encLenBytes l).length) 0).length := by
      simp only [List.length_append, List.length_replicate, List.length_map]
      simp only [List.length_append] at henc hv ⊢
      omega
    rw [hvals, wrBytes_splice _ _ _ (by simpa using hlen2), map_mod_id _ hb]
    rw [Nat.zero_add]
    have h1 : ((encTagBytes t ++ encLenBytes l).map (· % 256) ++
        List.replicate (M - (encTagBytes t ++ encLenBytes l).length) 0).take
          (encTagBytes t ++ encLenBytes l).length
        = (encTagBytes t ++ encLenBytes l).map (· % 256) := by
      rw [← hml]; exact List.take_left _ _
    have h2 : ((encTagBytes t ++ encLenBytes l).map (· % 256) ++
        List.replicate (M - (encTagBytes t ++ encLenBytes l).length) 0).drop
          ((encTagBytes t ++ encLenBytes l).length + v.length)
        = List.replicate (M - (encTagBytes t ++ encLenBytes l).length - l) 0 := by
      rw [← hml, List.drop_append, List.drop_replicate, hv]
    rw [h1, h2, List.append_assoc]
  rw [hsp1, hsp2]
  simp only [Nat.zero_add]
  rw [Nat.mod_eq_of_lt hlen]

/-! ## Round-trip machinery for claim C6 -/

theorem rt_82_1 (rest : List Nat) :
    (tlv_parseTLV (0x82 :: 0x01 :: rest) 3).1 = (1, ⟨0x82, 1, 2⟩) := by
  have h0 : rd (0x82 :: 0x01 :: rest) 0 = 0x82 := by simp [rd]
  have h1 : rd (0x82 :: 0x01 :: rest) 1 = 0x01 := by simp [rd]
  have htag := tlv_tag_single (0x82 :: 0x01 :: rest) 3 (by omega) (by rw [h0]; decide)
      (by rw [h0]; decide)
  rw [h0] at htag
  apply tlv_parseTLV_ok
  · have := tlv_tlv0_short _ 3 1 0x82 htag (by omega) (by omega)
      (by rw [show Int.toNat 1 = 1 from rfl, h1]; decide)
    rw [show Int.toNat 1 = 1 from rfl, h1] at this
    rw [this]
  · decide

theorem rt_82_7F (rest : List Nat) :
    (tlv_parseTLV (0x82 :: 0x7F :: rest) 129).1 = (1, ⟨0x82, 0x7F, 2⟩) := by
  have h0 : rd (0x82 :: 0x7F :: rest) 0 = 0x82 := by simp [rd]
  have h1 : rd (0x82 :: 0x7F :: rest) 1 = 0x7F := by simp [rd]
  have htag := tlv_tag_single (0x82 :: 0x7F :: rest) 129 (by omega) (by rw [h0]; decide)
      (by rw [h0]; decide)
  rw [h0] at htag
  apply tlv_parseTLV_ok
  · have := tlv_tlv0_short _ 129 1 0x82 htag (by omega) (by omega)
      (by rw [show Int.toNat 1 = 1 from rfl, h1]; decide)
    rw [show Int.toNat 1 = 1 from rfl, h1] at this
    rw [this]
  · decide

theorem rt_82_80 (rest : List Nat) :
    (tlv_parseTLV (0x82 :: 0x81 :: 0x80 :: rest) 131).1 = (1, ⟨0x82, 0x80, 3⟩) := by
  have h0 : rd (0x82 :: 0x81 :: 0x80 :: rest) 0 = 0x82 := by simp [rd]
  have h1 : rd (0x82 :: 0x81 :: 0x80 :: rest) 1 = 0x81 := by simp [rd]
  have h2 : rd (0x82 :: 0x81 :: 0x80 :: rest) 2 = 0x80 := by simp [rd]
  have htag := tlv_tag_single (0x82 :: 0x81 :: 0x80 :: rest) 131 (by omega) (by rw [h0]; decide)
      (by rw [h0]; decide)
  rw [h0] at htag
  apply tlv_parseTLV_ok
  · have := tlv_tlv0_long _ 131 1 0x82 htag (by omega)
      (by rw [show Int.toNat 1 = 1 from rfl, h1]; decide)
      (by rw [show Int.toNat 1 = 1 from rfl, h1]; decide)
      (by rw [show Int.toNat 1 = 1 from rfl, h1]; decide)
    rw [show Int.toNat 1 = 1 from rfl, h1,
        (by decide : (0x81 &&& 0x7f : Nat) = 1)] at this
    rw [lenLoop_one, show (1:Nat)+1 = 2 from rfl, h2] at this
    rw [this]
    decide
  · decide

theorem rt_82_1234 (rest : List Nat) :
    (tlv_parseTLV (0x82 :: 0x82 :: 0x12 :: 0x34 :: rest) 4664).1 = (1, ⟨0x82, 0x1234, 4⟩) := by
  have h0 : rd (0x82 :: 0x82 :: 0x12 :: 0x34 :: rest) 0 = 0x82 := by simp [rd]
  have h1 : rd (0x82 :: 0x82 :: 0x12 :: 0x34 :: rest) 1 = 0x82 := by simp [rd]
  have h2 : rd (0x82 :: 0x82 :: 0x12 :: 0x34 :: rest) 2 = 0x12 := by simp [rd]
  have h3 : rd (0x82 :: 0x82 :: 0x12 :: 0x34 :: rest) 3 = 0x34 := by simp [rd]
  have htag := tlv_tag_single (0x82 :: 0x82 :: 0x12 :: 0x34 :: rest) 4664 (by omega)
      (by rw [h0]; decide) (by rw [h0]; decide)
  rw [h0] at htag
  apply tlv_parseTLV_ok
  · have := tlv_tlv0_long _ 4664 1 0x82 htag (by omega)
      (by rw [show Int.toNat 1 = 1 from rfl, h1]; decide)
      (by rw [show Int.toNat 1 = 1 from rfl, h1]; decide)
      (by rw [show Int.toNat 1 = 1 from rfl, h1]; decide)
    rw [show Int.toNat 1 = 1 from rfl, h1,
        (by decide : (0x82 &&& 0x7f : Nat) = 2)] at this
    rw [lenLoop_two, show (1:Nat)+1 = 2 from rfl, show (2:Nat)+1 = 3 from rfl, h2, h3] at this
    rw [this]
    decide
  · decide

theorem rt_9F02_1 (rest : List Nat) :
    (tlv_parseTLV (0x9F :: 0x02 :: 0x01 :: rest) 4).1 = (1, ⟨0x9F02, 1, 3⟩) := by
  have h0 : rd (0x9F :: 0x02 :: 0x01 :: rest) 0 = 0x9F := by simp [rd]
  have h1 : rd (0x9F :: 0x02 :: 0x01 :: rest) 1 = 0x02 := by simp [rd]
  have h2 : rd (0x9F :: 0x02 :: 0x01 :: rest) 2 = 0x01 := by simp [rd]
  have htag := tlv_tag_double (0x9F :: 0x02 :: 0x01 :: rest) 4 (by omega)
      (by rw [h0]; decide) (by rw [h0]; decide) (by rw [h1]; decide)
  rw [h0, h1] at htag
  have htag2 : (tlv_tag (0x9F :: 0x02 :: 0x01 :: rest) 4).1 = (2, 0x9F02) := by
    rw [htag]; decide
  apply tlv_parseTLV_ok
  · have := tlv_tlv0_short _ 4 2 0x9F02 htag2 (by omega) (by omega)
      (by rw [show Int.toNat 2 = 2 from rfl, h2]; decide)
    rw [show Int.toNat 2 = 2 from rfl, h2] at this
    rw [this]
  · decide

theorem rt_9F02_7F (rest : List Nat) :
    (tlv_parseTLV (0x9F :: 0x02 :: 0x7F :: rest) 130).1 = (1, ⟨0x9F02, 0x7F, 3⟩) := by
  have h0 : rd (0x9F :: 0x02 :: 0x7F :: rest) 0 = 0x9F := by simp [rd]
  have h1 : rd (0x9F :: 0x02 :: 0x7F :: rest) 1 = 0x02 := by simp [rd]
  have h2 : rd (0x9F :: 0x02 :: 0x7F :: rest) 2 = 0x7F := by simp [rd]
  have htag := tlv_tag_double (0x9F :: 0x02 :: 0x7F :: rest) 130 (by omega)
      (by rw [h0]; decide) (by rw [h0]; decide) (by rw [h1]; decide)
  rw [h0, h1] at htag
  have htag2 : (tlv_tag (0x9F :: 0x02 :: 0x7F :: rest) 130).1 = (2, 0x9F02) := by
    rw [htag]; decide
  apply tlv_parseTLV_ok
  · have := tlv_tlv0_short _ 130 2 0x9F02 htag2 (by omega) (by omega)
      (by rw [show Int.toNat 2 = 2 from rfl, h2]; decide)
    rw [show Int.toNat 2 = 2 from rfl, h2] at this
    rw [this]
  · decide

theorem rt_9F02_80 (rest : List Nat) :
    (tlv_parseTLV (0x9F :: 0x02 :: 0x81 :: 0x80 :: rest) 132).1 = (1, ⟨0x9F02, 0x80, 4⟩) := by
  have h0 : rd (0x9F :: 0x02 :: 0x81 :: 0x80 :: rest) 0 = 0x9F := by simp [rd]
  have h1 : rd (0x9F :: 0x02 :: 0x81 :: 0x80 :: rest) 1 = 0x02 := by simp [rd]
  have h2 : rd (0x9F :: 0x02 :: 0x81 :: 0x80 :: rest) 2 = 0x81 := by simp [rd]
  have h3 : rd (0x9F :: 0x02 :: 0x81 :: 0x80 :: rest) 3 = 0x80 := by simp [rd]
  have htag := tlv_tag_double (0x9F :: 0x02 :: 0x81 :: 0x80 :: rest) 132 (by omega)
      (by rw [h0]; decide) (by rw [h0]; decide) (by rw [h1]; decide)
  rw [h0, h1] at htag
  have htag2 : (tlv_tag (0x9F :: 0x02 :: 0x81 :: 0x80 :: rest) 132).1 = (2, 0x9F02) := by
    rw [htag]; decide
  apply tlv_parseTLV_ok
  · have := tlv_tlv0_long _ 132 2 0x9F02 htag2 (by omega)
      (by rw [show Int.toNat 2 = 2 from rfl, h2]; decide)
      (by rw [show Int.toNat 2 = 2 from rfl, h2]; decide)
      (by rw [show Int.toNat 2 = 2 from rfl, h2]; decide)
    rw [show Int.toNat 2 = 2 from rfl, h2,
        (by decide : (0x81 &&& 0x7f : Nat) = 1)] at this
    rw [lenLoop_one, show (2:Nat)+1 = 3 from rfl, h3] at this
    rw [this]
    decide
  · decide

theorem rt_9F02_1234 (rest : List Nat) :
    (tlv_parseTLV (0x9F :: 0x02 :: 0x82 :: 0x12 :: 0x34 :: rest) 4665).1
      = (1, ⟨0x9F02, 0x1234, 5⟩) := by
  have h0 : rd (0x9F :: 0x02 :: 0x82 :: 0x12 :: 0x34 :: rest) 0 = 0x9F := by simp [rd]
  have h1 : rd (0x9F :: 0x02 :: 0x82 :: 0x12 :: 0x34 :: rest) 1 = 0x02 := by simp [rd]
  have h2 : rd (0x9F :: 0x02 :: 0x82 :: 0x12 :: 0x34 :: rest) 2 = 0x82 := by simp [rd]
  have h3 : rd (0x9F :: 0x02 :: 0x82 :: 0x12 :: 0x34 :: rest) 3 = 0x12 := by simp [rd]
  have h4 : rd (0x9F :: 0x02 :: 0x82 :: 0x12 :: 0x34 :: rest) 4 = 0x34 := by simp [rd]
  have htag := tlv_tag_double (0x9F :: 0x02 :: 0x82 :: 0x12 :: 0x34 :: rest) 4665 (by omega)
      (by rw [h0]; decide) (by rw [h0]; decide) (by rw [h1]; decide)
  rw [h0, h1] at htag
  have htag2 : (tlv_tag (0x9F :: 0x02 :: 0x82 :: 0x12 :: 0x34 :: rest) 4665).1 = (2, 0x9F02) := by
    rw [htag]; decide
  apply tlv_parseTLV_ok
  · have := tlv_tlv0_long _ 4665 2 0x9F02 htag2 (by omega)
      (by rw [show Int.toNat 2 = 2 from rfl, h2]; decide)
      (by rw [show Int.toNat 2 = 2 from rfl, h2]; decide)
      (by rw [show Int.toNat 2 = 2 from rfl, h2]; decide)
    rw [show Int.toNat 2 = 2 from rfl, h2,
        (by decide : (0x82 &&& 0x7f : Nat) = 2)] at this
    rw [lenLoop_two, show (2:Nat)+1 = 3 from rfl, show (3:Nat)+1 = 4 from rfl, h3, h4] at this
    rw [this]
    decide
  · decide

/-- The round-trip property of claim C6 for one tag / length / value. -/
def roundTripOK (t l : Nat) (v : List Nat) : Prop :=
  (tb_add ⟨0x2000, 0, List.replicate 0x2000 0⟩ ⟨t, l, some v⟩ 0).1.2 = 1 ∧
  ((tlv_parseTLV (tb_add ⟨0x2000, 0, List.replicate 0x2000 0⟩ ⟨t, l, some v⟩ 0).1.1.buf
      ((tb_add ⟨0x2000, 0, List.replicate 0x2000 0⟩ ⟨t, l, some v⟩ 0).1.1.len : Int)).1.1 = 1 ∧
   (tlv_parseTLV (tb_add ⟨0x2000, 0, List.replicate 0x2000 0⟩ ⟨t, l, some v⟩ 0).1.1.buf
      ((tb_add ⟨0x2000, 0, List.replicate 0x2000 0⟩ ⟨t, l, some v⟩ 0).1.1.len : Int)).1.2.t = t ∧
   (tlv_parseTLV (tb_add ⟨0x2000, 0, List.replicate 0x2000 0⟩ ⟨t, l, some v⟩ 0).1.1.buf
      ((tb_add ⟨0x2000, 0, List.replicate 0x2000 0⟩ ⟨t, l, some v⟩ 0).1.1.len : Int)).1.2.l = l ∧
   ((tb_add ⟨0x2000, 0, List.replicate 0x2000 0⟩ ⟨t, l, some v⟩ 0).1.1.buf.drop
      (tlv_parseTLV (tb_add ⟨0x2000, 0, List.replicate 0x2000 0⟩ ⟨t, l, some v⟩ 0).1.1.buf
        ((tb_add ⟨0x2000, 0, List.replicate 0x2000 0⟩ ⟨t, l, some v⟩ 0).1.1.len : Int)).1.2.voff).take l
     = v)

theorem rtCase_82_1 (v : List Nat) (hv : v.length = 1) (hb : ∀ b ∈ v, b < 256) :
    roundTripOK 0x82 1 v := by
  have hst := tb_add_empty 0x2000 0x82 1 v hv (by decide) (by decide) (by decide)
      (by decide) hb (by decide)
  rw [(by decide : (encTagBytes 0x82 ++ encLenBytes 1).map (· % 256) = [0x82, 0x01]),
      (by decide : (encTagBytes 0x82 ++ encLenBytes 1).length = 2)] at hst
  rw [roundTripOK, hst]
  simp only [List.cons_append, List.nil_append]
  have hcast : (((2 + 1 : Nat)) : Int) = 3 := by norm_num
  rw [hcast, rt_82_1 (v ++ List.replicate (0x2000 - 2 - 1) 0)]
  refine ⟨by trivial, by trivial, by trivial, by trivial, ?_⟩
  rw [show ((0x82 :: 0x01 :: (v ++ List.replicate (0x2000 - 2 - 1) 0)).drop 2)
        = v ++ List.replicate (0x2000 - 2 - 1) 0 from rfl]
  rw [← hv, List.take_left]

theorem rtCase_82_7F (v : List Nat) (hv : v.length = 0x7F) (hb : ∀ b ∈ v, b < 256) :
    roundTripOK 0x82 0x7F v := by
  have hst := tb_add_empty 0x2000 0x82 0x7F v hv (by decide) (by decide) (by decide)
      (by decide) hb (by decide)
  rw [(by decide : (encTagBytes 0x82 ++ encLenBytes 0x7F).map (· % 256) = [0x82, 0x7F]),
      (by decide : (encTagBytes 0x82 ++ encLenBytes 0x7F).length = 2)] at hst
  rw [roundTripOK, hst]
  simp only [List.cons_append, List.nil_append]
  have hcast : (((2 + 0x7F : Nat)) : Int) = 129 := by norm_num
  rw [hcast, rt_82_7F (v ++ List.replicate (0x2000 - 2 - 0x7F) 0)]
  refine ⟨by trivial, by trivial, by trivial, by trivial, ?_⟩
  rw [show ((0x82 :: 0x7F :: (v ++ List.replicate (0x2000 - 2 - 0x7F) 0)).drop 2)
        = v ++ List.replicate (0x2000 - 2 - 0x7F) 0 from rfl]
  rw [← hv, List.take_left]

theorem rtCase_82_80 (v : List Nat) (hv : v.length = 0x80) (hb : ∀ b ∈ v, b < 256) :
    roundTripOK 0x82 0x80 v := by
  have hst := tb_add_empty 0x2000 0x82 0x80 v hv (by decide) (by decide) (by decide)
      (by decide) hb (by decide)
  rw [(by decide : (encTagBytes 0x82 ++ encLenBytes 0x80).map (· % 256) = [0x82, 0x81, 0x80]),
      (by decide : (encTagBytes 0x82 ++ encLenBytes 0x80).length = 3)] at hst
  rw [roundTripOK, hst]
  simp only [List.cons_append, List.nil_append]
  have hcast : (((3 + 0x80 : Nat)) : Int) = 131 := by norm_num
  rw [hcast, rt_82_80 (v ++ List.replicate (0x2000 - 3 - 0x80) 0)]
  refine ⟨by trivial, by trivial, by trivial, by trivial, ?_⟩
  rw [show ((0x82 :: 0x81 :: 0x80 :: (v ++ List.replicate (0x2000 - 3 - 0x80) 0)).drop 3)
        = v ++ List.replicate (0x2000 - 3 - 0x80) 0 from rfl]
  rw [← hv, List.take_left]

theorem rtCase_82_1234 (v : List Nat) (hv : v.length = 0x1234) (hb : ∀ b ∈ v, b < 256) :
    roundTripOK 0x82 0x1234 v := by
  have hst := tb_add_empty 0x2000 0x82 0x1234 v hv (by decide) (by decide) (by decide)
      (by decide) hb (by decide)
  rw [(by decide : (encTagBytes 0x82 ++ encLenBytes 0x1234).map (· % 256) = [0x82, 0x82, 0x12, 0x34]),
      (by decide : (encTagBytes 0x82 ++ encLenBytes 0x1234).length = 4)] at hst
  rw [roundTripOK, hst]
  simp only [List.cons_append, List.nil_append]
  have hcast : (((4 + 0x1234 : Nat)) : Int) = 4664 := by norm_num
  rw [hcast, rt_82_1234 (v ++ List.replicate (0x2000 - 4 - 0x1234) 0)]
  refine ⟨by trivial, by trivial, by trivial, by trivial, ?_⟩
  rw [show ((0x82 :: 0x82 :: 0x12 :: 0x34 :: (v ++ List.replicate (0x2000 - 4 - 0x1234) 0)).drop 4)
        = v ++ List.replicate (0x2000 - 4 - 0x1234) 0 from rfl]
  rw [← hv, List.take_left]

theorem rtCase_9F02_1 (v : List Nat) (hv : v.length = 1) (hb : ∀ b ∈ v, b < 256) :
    roundTripOK 0x9F02 1 v := by
  have hst := tb_add_empty 0x2000 0x9F02 1 v hv (by decide) (by decide) (by decide)
      (by decide) hb (by decide)
  rw [(by decide : (encTagBytes 0x9F02 ++ encLenBytes 1).map (· % 256) = [0x9F, 0x02, 0x01]),
      (by decide : (encTagBytes 0x9F02 ++ encLenBytes 1).length = 3)] at hst
  rw [roundTripOK, hst]
  simp only [List.cons_append, List.nil_append]
  have hcast : (((3 + 1 : Nat)) : Int) = 4 := by norm_num
  rw [hcast, rt_9F02_1 (v ++ List.replicate (0x2000 - 3 - 1) 0)]
  refine ⟨by trivial, by trivial, by trivial, by trivial, ?_⟩
  rw [show ((0x9F :: 0x02 :: 0x01 :: (v ++ List.replicate (0x2000 - 3 - 1) 0)).drop 3)
        = v ++ List.replicate (0x2000 - 3 - 1) 0 from rfl]
  rw [← hv, List.take_left]

theorem rtCase_9F02_7F (v : List Nat) (hv : v.length = 0x7F) (hb : ∀ b ∈ v, b < 256) :
    roundTripOK 0x9F02 0x7F v := by
  have hst := tb_add_empty 0x2000 0x9F02 0x7F v hv (by decide) (by decide) (by decide)
      (by decide) hb (by decide)
  rw [(by decide : (encTagBytes 0x9F02 ++ encLenBytes 0x7F).map (· % 256) = [0x9F, 0x02, 0x7F]),
      (by decide : (encTagBytes 0x9F02 ++ encLenBytes 0x7F).length = 3)] at hst
  rw [roundTripOK, hst]
  simp only [List.cons_append, List.nil_append]
  have hcast : (((3 + 0x7F : Nat)) : Int) = 130 := by norm_num
  rw [hcast, rt_9F02_7F (v ++ List.replicate (0x2000 - 3 - 0x7F) 0)]
  refine ⟨by trivial, by trivial, by trivial, by trivial, ?_⟩
  rw [show ((0x9F :: 0x02 :: 0x7F :: (v ++ List.replicate (0x2000 - 3 - 0x7F) 0)).drop 3)
        = v ++ List.replicate (0x2000 - 3 - 0x7F) 0 from rfl]
  rw [← hv, List.take_left]

theorem rtCase_9F02_80 (v : List Nat) (hv : v.length = 0x80) (hb : ∀ b ∈ v, b < 256) :
    roundTripOK 0x9F02 0x80 v := by
  have hst := tb_add_empty 0x2000 0x9F02 0x80 v hv (by decide) (by decide) (by decide)
      (by decide) hb (by decide)
  rw [(by decide : (encTagBytes 0x9F02 ++ encLenBytes 0x80).map (· % 256) = [0x9F, 0x02, 0x81, 0x80]),
      (by decide : (encTagBytes 0x9F02 ++ encLenBytes 0x80).length = 4)] at hst
  rw [roundTripOK, hst]
  simp only [List.cons_append, List.nil_append]
  have hcast : (((4 + 0x80 : Nat)) : Int) = 132 := by norm_num
  rw [hcast, rt_9F02_80 (v ++ List.replicate (0x2000 - 4 - 0x80) 0)]
  refine ⟨by trivial, by trivial, by trivial, by trivial, ?_⟩
  rw [show ((0x9F :: 0x02 :: 0x81 :: 0x80 :: (v ++ List.replicate (0x2000 - 4 - 0x80) 0)).drop 4)
        = v ++ List.replicate (0x2000 - 4 - 0x80) 0 from rfl]
  rw [← hv, List.take_left]

theorem rtCase_9F02_1234 (v : List Nat) (hv : v.length = 0x1234) (hb : ∀ b ∈ v, b < 256) :
    roundTripOK 0x9F02 0x1234 v := by
  have hst := tb_add_empty 0x2000 0x9F02 0x1234 v hv (by decide) (by decide) (by decide)
      (by decide) hb (by decide)
  rw [(by decide : (encTagBytes 0x9F02 ++ encLenBytes 0x1234).map (· % 256) = [0x9F, 0x02, 0x82, 0x12, 0x34]),
      (by decide : (encTagBytes 0x9F02 ++ encLenBytes 0x1234).length = 5)] at hst
  rw [roundTripOK, hst]
  simp only [List.cons_append, List.nil_append]
  have hcast : (((5 + 0x1234 : Nat)) : Int) = 4665 := by norm_num
  rw [hcast, rt_9F02_1234 (v ++ List.replicate (0x2000 - 5 - 0x1234) 0)]
  refine ⟨by trivial, by trivial, by trivial, by trivial, ?_⟩
  rw [show ((0x9F :: 0x02 :: 0x82 :: 0x12 :: 0x34 :: (v ++ List.replicate (0x2000 - 5 - 0x1234) 0)).drop 5)
        = v ++ List.replicate (0x2000 - 5 - 0x1234) 0 from rfl]
  rw [← hv, List.take_left]


/-! ## Lemmas for the overlong-tag behaviour (claim C8) -/

theorem getD_eq_headD_drop (bs : List Nat) (n : Nat) :
    bs.getD n 0 = (bs.drop n).headD 0 := by
  induction bs generalizing n with
  | nil => simp [List.getD]
  | cons a l ih =>
    cases n with
    | zero => simp
    | succ m => simpa using ih m

theorem drop_succ_of_drop_cons (bs : List Nat) (n x : Nat) (xs : List Nat)
    (h : bs.drop n = x :: xs) : bs.drop (n+1) = xs := by
  have := List.drop_drop 1 n bs
  rw [h] at this
  simpa using this.symm

/-- The tag continuation loop runs through a block `cs` of bytes with the
continuation bit set and stops on the terminating byte after it. -/
theorem tagLoop_overlong (bs : List Nat) (n lastB : Nat) (rest : List Nat)
    (hlast : lastB < 256) (hl7 : lastB &&& 0x80 = 0) :
    ∀ (cs : List Nat) (i tag fuel : Nat),
      (∀ c ∈ cs, c < 256 ∧ c &&& 0x80 ≠ 0) →
      bs.drop (i+1) = cs ++ lastB :: rest →
      i + 1 + cs.length < n →
      cs.length < fuel →
      (tagLoop bs n fuel i tag).1 = i + cs.length + 1 := by
  intro cs
  induction cs with
  | nil =>
    intro i tag fuel hcs hdrop hn hfuel
    have hrd : rd bs (i+1) = lastB := by
      rw [rd, getD_eq_headD_drop, hdrop]
      simp [Nat.mod_eq_of_lt hlast]
    rw [tagLoop_stop _ _ _ _ _ (by omega)
        (fun h => h.2 (by rw [hrd]; exact hl7))]
    simp
  | cons c cs' ih =>
    intro i tag fuel hcs hdrop hn hfuel
    have hme : c < 256 ∧ c &&& 0x80 ≠ 0 := hcs c (by simp)
    have hrd : rd bs (i+1) = c := by
      rw [rd, getD_eq_headD_drop, hdrop]
      simp [Nat.mod_eq_of_lt hme.1]
    match fuel with
    | 0 => exact absurd hfuel (by omega)
    | f+1 =>
      rw [tagLoop_cont _ _ f i tag (by simp at hn ⊢; omega) (by rw [hrd]; exact hme.2)]
      have hdrop2 : bs.drop (i+1+1) = cs' ++ lastB :: rest := by
        apply drop_succ_of_drop_cons _ _ c
        rw [hdrop]; simp
      have := ih (i+1) (((tag <<< 8) % 65536) ||| rd bs (i+1)) f
        (fun x hx => hcs x (by simp [hx])) hdrop2 (by simp at hn ⊢; omega)
        (by simp at hfuel ⊢; omega)
      simpa using by rw [this]; omega


/-- A failing `tb_append` leaves the collection untouched (the only error
exit is the capacity check, which precedes every write). -/
theorem tb_append_state (tb : TLVbuf) (t l : Nat) (v : Option (List Nat))
    (h : (tb_append tb t l v).1.2 < 0) : (tb_append tb t l v).1.1 = tb := by
  by_cases hc : tb.mlen ≤ tb.len + l + 2
  · rw [tb_append, if_pos hc]
  · rw [tb_append, if_neg hc] at h
    norm_num at h


/-! ## The claims -/

theorem scanUAux_succ (bs : List Nat) (w pos acc : Nat) :
    scanUAux bs (w+1) pos acc =
      if isDigitByte (rd bs pos) then scanUAux bs w (pos+1) (acc * 10 + (rd bs pos - 48))
      else acc := rfl

/-- C1: the claim states that no decode operation (`tlv_tag`, `tlv_tlv0`,
`tlv_parseTLV`) ever reads a buffer byte at an index outside `[0, rlen)`,
including when the tag byte with the continuation marker is the last byte
before the limit.  The code violates exactly that case: on the one-byte
buffer `[0x9F]` with `rlen = 1`, the do-while body of `tlv_tag` increments
`i` to 1 and reads `rbuf[1]` — the index `rlen` itself, outside
`[0, 1)` — before the loop condition checks the bound.  The read traces
of all three decoders on this input contain index 1. -/
theorem C1_decode_reads_past_limit :
    (tlv_tag [0x9F] 1).2 = [0, 0, 1] ∧ (1 : Nat) ∈ (tlv_tag [0x9F] 1).2 ∧
    (tlv_tlv0 [0x9F] 1).2 = [0, 0, 1] ∧
    (tlv_parseTLV [0x9F] 1).2 = [0, 0, 1] := by decide

/-- C2: the claim states that `tb_add` appends only when used-length plus
the record's full encoded span fits the capacity and never writes at or
beyond `mlen`.  The code's capacity check is `len + l + 2 >= mlen`, which
ignores the actual tag and length byte widths.  With a 2-byte tag and a
2-byte long-form length (tag 0x9F02, length 0x80) on an empty collection
of capacity 131, the add succeeds, writes offset 131 (= `mlen`), and sets
`len` to 132 > `mlen`.  Conversely a record whose span exactly fills the
capacity (tag 0x41, length 1, capacity 3) is rejected with `-EPIPE`. -/
theorem C2_append_writes_past_capacity :
    (tb_add ⟨131, 0, List.replicate 131 0⟩
      ⟨0x9F02, 0x80, some (List.replicate 128 0xAB)⟩ 0).1.2 = 1 ∧
    (tb_add ⟨131, 0, List.replicate 131 0⟩
      ⟨0x9F02, 0x80, some (List.replicate 128 0xAB)⟩ 0).1.1.len = 132 ∧
    131 ∈ (tb_add ⟨131, 0, List.replicate 131 0⟩
      ⟨0x9F02, 0x80, some (List.replicate 128 0xAB)⟩ 0).2 ∧
    (tb_add ⟨3, 0, List.replicate 3 0⟩ ⟨0x41, 1, some [0xAA]⟩ 0).1.2 = -32 := by decide

/-- C3 (counterexample): atomicity fails.  Overwriting the only record
(tag 0x82, old length 1) with a longer view in a full collection first
deletes the record, then fails the capacity check: the call returns
`-EPIPE` yet the used-length has changed from 3 to 0.  Likewise
`tb_addbuf` of two records into a collection with room for only the first
returns `-EPIPE` with the first record already added (used-length 3). -/
theorem C3_counterexample :
    ((tb_add ⟨5, 3, [0x82, 0x01, 0xAA, 0, 0]⟩ ⟨0x82, 3, some [1, 2, 3]⟩ 1).1.2 = -32 ∧
     (tb_add ⟨5, 3, [0x82, 0x01, 0xAA, 0, 0]⟩ ⟨0x82, 3, some [1, 2, 3]⟩ 1).1.1.len = 0) ∧
    ((tb_addbuf ⟨6, 0, List.replicate 6 0⟩ [0x41, 1, 0xAA, 0x42, 2, 0xBB, 0xCC] 7 0).2 = -32 ∧
     (tb_addbuf ⟨6, 0, List.replicate 6 0⟩ [0x41, 1, 0xAA, 0x42, 2, 0xBB, 0xCC] 7 0).1.len = 3) := by
  decide

/-- C3 (amended): `tb_add` under any policy other than Overwrite (`ovr ≠ 1`)
is atomic — every negative return leaves the collection exactly as it was.
Under Overwrite the deletion of an existing record of different length can
survive a failing capacity check, and `tb_addbuf` keeps the records added
before the first failure (both shown by the counterexample). -/
theorem C3_add_atomic_except_overwrite (tb : TLVbuf) (tlv : TLVin) (ovr : Nat)
    (hovr : ovr ≠ 1) (herr : (tb_add tb tlv ovr).1.2 < 0) :
    (tb_add tb tlv ovr).1.1 = tb := by
  by_cases h1 : tlv.l = 0
  · rw [tb_add, if_pos h1]
  · by_cases h2 : (tlv.t ≤ 0xff ∧ tlv_tag0 tlv.t &&& 0x1f = 0x1f) ∨
        (0xff < tlv.t ∧ tlv.t &&& 0x80 ≠ 0) ∨ tlv.t = 0
    · rw [tb_add, if_neg h1, if_pos h2]
    · by_cases h3 : ovr < 3 ∧ (tb_find tb tlv.t).1 ≠ 0
      · rw [tb_add, if_neg h1, if_neg h2, if_pos h3] at herr ⊢
        cases hopt : (tb_find tb tlv.t).2.1 with
        | none =>
          rw [hopt] at herr
          rw [Option.elim_none] at herr ⊢
          exact tb_append_state _ _ _ _ herr
        | some t0 =>
          rw [hopt] at herr
          rw [Option.elim_some] at herr ⊢
          by_cases h4 : ovr = 0
          · rw [if_pos h4]
          · by_cases h5 : ovr = 2
            · rw [if_neg h4, if_pos h5] at herr
              norm_num at herr
            · exact absurd h3.1 (by omega)
      · rw [tb_add, if_neg h1, if_neg h2, if_neg h3] at herr ⊢
        exact tb_append_state _ _ _ _ herr

theorem C3_add_atomic_except_overwrite_witness :
    (0 : Nat) ≠ 1 ∧ (tb_add ⟨3, 0, [0, 0, 0]⟩ ⟨0x41, 5, none⟩ 0).1.2 < 0 ∧
    (tb_add ⟨3, 0, [0, 0, 0]⟩ ⟨0x41, 5, none⟩ 0).1.1 = ⟨3, 0, [0, 0, 0]⟩ :=
  ⟨by decide, by decide,
   C3_add_atomic_except_overwrite ⟨3, 0, [0, 0, 0]⟩ ⟨0x41, 5, none⟩ 0 (by decide) (by decide)⟩

/-- C4: the claim states that `tb_del` removes exactly the record's encoded
span (2 length bytes for lengths 0x80 to 0xFF) for every length including
0xFF.  The code increments the re-derived length before testing `> 0xff`,
so a record of value length 0xFF (encoded `0x81 0xFF`, span 258) is
treated as spanning 259 bytes: deleting B from A,B,C overwrites the last
byte of A (its value byte 0xAA becomes C's tag 0x43), reduces the
used-length from 264 to 5 instead of 6, and leaves an inconsistent
buffer — `find(A)` no longer sees unchanged content and `tlv_check`
returns false. -/
theorem C4_delete_miscomputes_span :
    (tb_del ⟨300, 264, ([0x41, 1, 0xAA, 0x42, 0x81, 0xFF] ++ List.replicate 255 0xBB ++
        [0x43, 1, 0xCC]) ++ List.replicate 36 0⟩ 0x42).1 = 1 ∧
    (tb_del ⟨300, 264, ([0x41, 1, 0xAA, 0x42, 0x81, 0xFF] ++ List.replicate 255 0xBB ++
        [0x43, 1, 0xCC]) ++ List.replicate 36 0⟩ 0x42).2.len = 5 ∧
    (tb_del ⟨300, 264, ([0x41, 1, 0xAA, 0x42, 0x81, 0xFF] ++ List.replicate 255 0xBB ++
        [0x43, 1, 0xCC]) ++ List.replicate 36 0⟩ 0x42).2.buf.take 5
      = [0x41, 1, 0x43, 1, 0xCC] ∧
    tlv_check
      (tb_del ⟨300, 264, ([0x41, 1, 0xAA, 0x42, 0x81, 0xFF] ++ List.replicate 255 0xBB ++
        [0x43, 1, 0xCC]) ++ List.replicate 36 0⟩ 0x42).2.buf
      ((tb_del ⟨300, 264, ([0x41, 1, 0xAA, 0x42, 0x81, 0xFF] ++ List.replicate 255 0xBB ++
        [0x43, 1, 0xCC]) ++ List.replicate 36 0⟩ 0x42).2.len : Int) = false := by decide

/-- C5: the claim states that `tlv_check` is true for every collection
built from successful `tb_add` calls.  The tag-validity check of `tb_add`
accepts the 2-byte tag 0x0102 even though its high byte lacks the 0x1F
continuation marker (so its bytes re-parse as the 1-byte tag 0x01).
Adding it (length 2, value 0xAA 0xBB) to an empty collection succeeds,
yet the resulting 5 used bytes `01 02 02 AA BB` re-parse as tag 0x01 of
length 2 followed by a truncated record, and `tlv_check` returns false. -/
theorem C5_add_breaks_consistency :
    (tb_add ⟨64, 0, List.replicate 64 0⟩ ⟨0x0102, 2, some [0xAA, 0xBB]⟩ 0).1.2 = 1 ∧
    (tb_add ⟨64, 0, List.replicate 64 0⟩ ⟨0x0102, 2, some [0xAA, 0xBB]⟩ 0).1.1.len = 5 ∧
    tlv_check (tb_add ⟨64, 0, List.replicate 64 0⟩ ⟨0x0102, 2, some [0xAA, 0xBB]⟩ 0).1.1.buf
      ((tb_add ⟨64, 0, List.replicate 64 0⟩ ⟨0x0102, 2, some [0xAA, 0xBB]⟩ 0).1.1.len : Int)
      = false := by decide

/-- C6: round-trip — for every tag in {0x82, 0x9F02}, every length in
{1, 0x7F, 0x80, 0x1234} and every value of that many bytes, appending the
view via `tb_add` to an empty collection with sufficient capacity and then
decoding `buffer[0, used-length)` via `tlv_parseTLV` succeeds and yields
exactly the original tag, length and value bytes. -/
theorem C6_roundtrip :
    ∀ t ∈ ([0x82, 0x9F02] : List Nat), ∀ l ∈ ([1, 0x7F, 0x80, 0x1234] : List Nat),
    ∀ v : List Nat, v.length = l → (∀ b ∈ v, b < 256) → roundTripOK t l v := by
  intro t ht l hl v hv hb
  fin_cases ht <;> fin_cases hl
  · exact rtCase_82_1 v hv hb
  · exact rtCase_82_7F v hv hb
  · exact rtCase_82_80 v hv hb
  · exact rtCase_82_1234 v hv hb
  · exact rtCase_9F02_1 v hv hb
  · exact rtCase_9F02_7F v hv hb
  · exact rtCase_9F02_80 v hv hb
  · exact rtCase_9F02_1234 v hv hb

theorem C6_roundtrip_witness :
    (0x82 : Nat) ∈ ([0x82, 0x9F02] : List Nat) ∧
    (1 : Nat) ∈ ([1, 0x7F, 0x80, 0x1234] : List Nat) ∧
    ([0xAB] : List Nat).length = 1 ∧ roundTripOK 0x82 1 [0xAB] :=
  ⟨by decide, by decide, rfl,
   C6_roundtrip 0x82 (by decide) 1 (by decide) [0xAB] rfl (by decide)⟩

/-- C7 (counterexample): the claim says a long-form length count above 2 is
rejected with -2 regardless of how many bytes remain.  On `[0x41, 0x85]`
with `rlen = 2` the count is 5 but no bytes remain after the length's
first byte, and the code returns -1 (ShortBuffer), because the
short-buffer check precedes the count-limit check. -/
theorem C7_counterexample :
    (tlv_tlv0 [0x41, 0x85] 2).1.1 = -1 ∧
    (tlv_parseTLV [0x41, 0x85] 2).1.1 = -1 := by decide

/-- C7 (amended): for every buffer whose (single-byte-tag) record has a
long-form length byte with more than 2 low bits worth of count, decoding
rejects with the distinct LengthFieldTooLong error (-2) rather than
ShortBuffer (-1), provided the count does not exceed the bytes remaining
after the length's first byte; when it does, ShortBuffer (-1) is returned
instead — the short-buffer check precedes the count-limit check. -/
theorem C7_too_long_is_distinct_error (a lb : Nat) (rest : List Nat) (rlen : Int)
    (ha : a < 256) (ha0 : a ≠ 0) (haseq : a &&& 0x1f ≠ 0x1f)
    (hlb : lb < 256) (hbit : lb &&& 0x80 ≠ 0) (hcnt : 2 < lb &&& 0x7f)
    (hrem : ((lb &&& 0x7f : Nat) : Int) ≤ rlen - 2) :
    (tlv_tlv0 (a :: lb :: rest) rlen).1.1 = -2 ∧
    (tlv_parseTLV (a :: lb :: rest) rlen).1.1 = -2 := by
  have h0 : rd (a :: lb :: rest) 0 = a := by simp [rd, Nat.mod_eq_of_lt ha]
  have h1 : rd (a :: lb :: rest) 1 = lb := by simp [rd, Nat.mod_eq_of_lt hlb]
  have hrl : (2:Int) ≤ rlen := by
    have : (0:Int) ≤ ((lb &&& 0x7f : Nat) : Int) := Int.ofNat_nonneg _
    omega
  have htag := tlv_tag_single (a :: lb :: rest) rlen (by omega)
      (by rw [h0]; exact ha0) (by rw [h0]; exact haseq)
  rw [h0] at htag
  have hm : (tlv_tlv0 (a :: lb :: rest) rlen).1.1 = -2 := by
    apply tlv_tlv0_len_toolong _ rlen 1 a htag (by omega)
    · rw [show Int.toNat 1 = 1 from rfl, h1]; exact hbit
    · rw [show Int.toNat 1 = 1 from rfl, h1]; exact hcnt
    · rw [show Int.toNat 1 = 1 from rfl, h1]; omega
  refine ⟨hm, ?_⟩
  rw [tlv_parseTLV, if_pos (by rw [hm]; norm_num : (tlv_tlv0 (a :: lb :: rest) rlen).1.1 ≤ 0)]
  exact hm

theorem C7_too_long_is_distinct_error_witness :
    2 < (0x85 &&& 0x7f : Nat) ∧
    (tlv_tlv0 [0x41, 0x85, 0, 0, 0, 0, 0] 7).1.1 = -2 ∧
    (tlv_parseTLV [0x41, 0x85, 0, 0, 0, 0, 0] 7).1.1 = -2 :=
  ⟨by decide,
   (C7_too_long_is_distinct_error 0x41 0x85 [0, 0, 0, 0, 0] 7 (by decide) (by decide)
     (by decide) (by decide) (by decide) (by decide) (by decide)).1,
   (C7_too_long_is_distinct_error 0x41 0x85 [0, 0, 0, 0, 0] 7 (by decide) (by decide)
     (by decide) (by decide) (by decide) (by decide) (by decide)).2⟩

/-- C8: for every buffer whose tag encoding is terminated within the limit
but spans more than 2 bytes (first byte with the 0x1F marker, at least one
continuation byte with bit 7 set, then a terminating byte with bit 7
clear), `tlv_tag` succeeds — returning the number of bytes consumed
through the terminating byte — but reports the decoded tag value as 0
rather than failing. -/
theorem C8_overlong_tag_collapses_to_zero (b0 lastB : Nat) (cs rest : List Nat) (rlen : Int)
    (hb0 : b0 < 256) (hseq : b0 &&& 0x1f = 0x1f)
    (hcs : ∀ c ∈ cs, c < 256 ∧ c &&& 0x80 ≠ 0) (hne : cs ≠ [])
    (hlast : lastB < 256) (hl7 : lastB &&& 0x80 = 0)
    (hrlen : ((cs.length : Int) + 2) ≤ rlen) :
    (tlv_tag (b0 :: (cs ++ lastB :: rest)) rlen).1 = ((cs.length : Int) + 2, 0) := by
  have hb0ne : b0 ≠ 0 := by
    intro h; rw [h] at hseq; simp at hseq
  have hrd0 : rd (b0 :: (cs ++ lastB :: rest)) 0 = b0 := by
    simp [rd, Nat.mod_eq_of_lt hb0]
  have hcspos : 1 ≤ cs.length := by
    cases cs with
    | nil => exact absurd rfl hne
    | cons a l => simp
  have hn : cs.length + 2 ≤ rlen.toNat := by omega
  have hi2 := tagLoop_overlong (b0 :: (cs ++ lastB :: rest)) rlen.toNat lastB rest
      hlast hl7 cs 0 b0 (rlen.toNat - 0)
      hcs (by simp) (by omega) (by omega)
  have hrdlast : rd (b0 :: (cs ++ lastB :: rest)) (0 + cs.length + 1) = lastB := by
    rw [rd, getD_eq_headD_drop]
    have : (b0 :: (cs ++ lastB :: rest)).drop (0 + cs.length + 1) = lastB :: rest := by
      have h1 : (b0 :: (cs ++ lastB :: rest)).drop (cs.length + 1)
          = (cs ++ lastB :: rest).drop cs.length := by
        simp [List.drop]
      rw [show (0 + cs.length + 1) = cs.length + 1 from by omega, h1, List.drop_left]
    rw [this]
    simp [Nat.mod_eq_of_lt hlast]
  simp only [tlv_tag]
  rw [if_neg (by omega : ¬ rlen < 0),
      skipZeros_stop _ _ _ _ (by omega) (by omega) (by rw [hrd0]; exact hb0ne)]
  dsimp only
  rw [hrd0]
  rw [if_neg (by omega : ¬ (0:Nat) = rlen.toNat), if_pos hseq]
  rw [hi2]
  rw [if_neg (by omega : ¬ rlen.toNat ≤ 0 + cs.length + 1),
      if_neg (by rw [hrdlast, hl7]; simp),
      if_pos (by omega : 2 < 0 + cs.length + 1 + 1 - 0)]
  dsimp only
  rw [Prod.mk.injEq]
  refine ⟨?_, rfl⟩
  push_cast
  ring

theorem C8_overlong_tag_collapses_to_zero_witness :
    ([0x81] : List Nat) ≠ [] ∧ (tlv_tag [0x9F, 0x81, 0x01] 3).1 = (3, 0) := by
  have h := C8_overlong_tag_collapses_to_zero 0x9F 0x01 [0x81] [] 3
    (by decide) (by decide) (by decide) (by decide) (by decide) (by decide) (by decide)
  exact ⟨by decide, by simpa using h⟩

/-- C9: on a buffer of at least 6 bytes beginning with 6 ASCII decimal
digits, `tlv_parseLTV` fails (-1) when the limit is below 6, when the
4-digit decimal number is below 2, or when that number minus 2 exceeds
limit minus 6; otherwise it succeeds with value length = the number minus
2, value offset 6, and a tag decoded from the first two ASCII digits (the
same starting offset as the length field, not digits 4 and 5). -/
theorem C9_ascii_header (e0 e1 e2 e3 e4 e5 : Nat) (rest : List Nat) (rlen : Int)
    (h0 : e0 ≤ 9) (h1 : e1 ≤ 9) (h2 : e2 ≤ 9) (h3 : e3 ≤ 9) (h4 : e4 ≤ 9) (h5 : e5 ≤ 9) :
    ((rlen < 6 ∨ e0*1000 + e1*100 + e2*10 + e3 < 2 ∨
        ((e0*1000 + e1*100 + e2*10 + e3 : Nat) : Int) - 2 > rlen - 6) →
      (tlv_parseLTV ((48+e0) :: (48+e1) :: (48+e2) :: (48+e3) :: (48+e4) :: (48+e5) :: rest)
        rlen).1 = -1) ∧
    (¬ (rlen < 6 ∨ e0*1000 + e1*100 + e2*10 + e3 < 2 ∨
        ((e0*1000 + e1*100 + e2*10 + e3 : Nat) : Int) - 2 > rlen - 6) →
      tlv_parseLTV ((48+e0) :: (48+e1) :: (48+e2) :: (48+e3) :: (48+e4) :: (48+e5) :: rest) rlen
        = (1, ⟨e0*10 + e1, e0*1000 + e1*100 + e2*10 + e3 - 2, 6⟩)) := by
  set bs := (48+e0) :: (48+e1) :: (48+e2) :: (48+e3) :: (48+e4) :: (48+e5) :: rest with hbs
  have hr0 : rd bs 0 = 48 + e0 := by simp [hbs, rd]; omega
  have hr1 : rd bs 1 = 48 + e1 := by simp [hbs, rd]; omega
  have hr2 : rd bs 2 = 48 + e2 := by simp [hbs, rd]; omega
  have hr3 : rd bs 3 = 48 + e3 := by simp [hbs, rd]; omega
  have hd0 : isDigitByte (rd bs 0) = true := by rw [hr0]; simp [isDigitByte]; omega
  have hd1 : isDigitByte (rd bs 1) = true := by rw [hr1]; simp [isDigitByte]; omega
  have hd2 : isDigitByte (rd bs 2) = true := by rw [hr2]; simp [isDigitByte]; omega
  have hd3 : isDigitByte (rd bs 3) = true := by rw [hr3]; simp [isDigitByte]; omega
  have hscan4 : scanU bs 4 = some (e0*1000 + e1*100 + e2*10 + e3) := by
    rw [scanU, if_pos hd0]
    rw [show (4:Nat) = 3+1 from rfl, scanUAux_succ, if_pos hd0, hr0,
        show (3:Nat) = 2+1 from rfl, scanUAux_succ, if_pos hd1, hr1,
        show (2:Nat) = 1+1 from rfl, scanUAux_succ, if_pos hd2, hr2,
        show (1:Nat) = 0+1 from rfl, scanUAux_succ, if_pos hd3, hr3]
    rw [show scanUAux bs 0 (0+1+1+1+1) ((((0 * 10 + (48 + e0 - 48)) * 10 + (48 + e1 - 48)) * 10
        + (48 + e2 - 48)) * 10 + (48 + e3 - 48)) = (((0 * 10 + (48 + e0 - 48)) * 10
        + (48 + e1 - 48)) * 10 + (48 + e2 - 48)) * 10 + (48 + e3 - 48) from rfl]
    congr 1
    omega
  have hscan2 : scanU bs 2 = some (e0*10 + e1) := by
    rw [scanU, if_pos hd0]
    rw [show (2:Nat) = 1+1 from rfl, scanUAux_succ, if_pos hd0, hr0,
        show (1:Nat) = 0+1 from rfl, scanUAux_succ, if_pos hd1, hr1]
    rw [show scanUAux bs 0 (0+1+1) ((0 * 10 + (48 + e0 - 48)) * 10 + (48 + e1 - 48))
        = (0 * 10 + (48 + e0 - 48)) * 10 + (48 + e1 - 48) from rfl]
    congr 1
    omega
  have hN : e0*1000 + e1*100 + e2*10 + e3 < 65536 := by omega
  have hT : e0*10 + e1 < 65536 := by omega
  by_cases hr6 : rlen < 6
  · constructor
    · intro _; rw [tlv_parseLTV, if_pos hr6]
    · intro h; exact absurd (Or.inl hr6) h
  · have heq0 : tlv_parseLTV bs rlen =
        (if e0*1000 + e1*100 + e2*10 + e3 < 2 then
          (-1, ⟨e0*10 + e1, e0*1000 + e1*100 + e2*10 + e3, 0⟩)
        else if ((e0*1000 + e1*100 + e2*10 + e3 - 2 : Nat) : Int) > rlen - 6 then
          (-1, ⟨e0*10 + e1, e0*1000 + e1*100 + e2*10 + e3 - 2, 6⟩)
        else (1, ⟨e0*10 + e1, e0*1000 + e1*100 + e2*10 + e3 - 2, 6⟩)) := by
      rw [tlv_parseLTV, if_neg hr6, hscan4, hscan2]
      simp only [Nat.mod_eq_of_lt hN, Nat.mod_eq_of_lt hT]
    constructor
    · intro hdisj
      rcases hdisj with h | h | h
      · exact absurd h hr6
      · rw [heq0, if_pos h]
      · rw [heq0]
        by_cases hN2 : e0*1000 + e1*100 + e2*10 + e3 < 2
        · rw [if_pos hN2]
        · rw [if_neg hN2, if_pos (by
            push_cast [Nat.cast_sub (by omega : 2 ≤ e0*1000 + e1*100 + e2*10 + e3)]
            omega)]
    · intro hcon
      push_neg at hcon
      obtain ⟨-, hN2, hfit⟩ := hcon
      rw [heq0, if_neg (by omega), if_neg (by
        push_cast [Nat.cast_sub (by omega : 2 ≤ e0*1000 + e1*100 + e2*10 + e3)]
        omega)]

theorem C9_ascii_header_witness :
    ¬ ((1238 : Int) < 6 ∨ 1*1000 + 2*100 + 3*10 + 4 < 2 ∨
        ((1*1000 + 2*100 + 3*10 + 4 : Nat) : Int) - 2 > 1238 - 6) ∧
    tlv_parseLTV ((48+1) :: (48+2) :: (48+3) :: (48+4) :: (48+5) :: (48+6) :: []) 1238
      = (1, ⟨1*10 + 2, 1*1000 + 2*100 + 3*10 + 4 - 2, 6⟩) :=
  ⟨by decide,
   (C9_ascii_header 1 2 3 4 5 6 [] 1238 (by decide) (by decide) (by decide) (by decide)
     (by decide) (by decide)).2 (by decide)⟩

/-- C10: `tlv_find` with requested tag 0 returns NotFound (0) immediately:
the result is 0, the out parameter is never written, and the read trace is
empty — the buffer is not scanned; `tb_find` inherits this.  Hence a
record whose tag was collapsed to 0 by the overlong-tag fallback can never
be located by flat find. -/
theorem C10_find_tag_zero (bs : List Nat) (l : Int) (tb : TLVbuf) :
    tlv_find bs l 0 = (0, none, []) ∧ tb_find tb 0 = (0, none, []) := by
  constructor
  · simp [tlv_find]
  · simp [tb_find, tlv_find]
